import Mathlib

/-!
Verification development for the riftoracle match scraper
(src/data-collection/match-scraper-aws.py).

The Python source is shallowly embedded below.  Pure logic (string
parsing, the rate-limiter arithmetic, the retry loop, the archive and
cache updates, the collection loop) is translated into executable Lean
definitions; the external world (the HTTP API, the filesystem) is
represented by an explicit oracle and an explicit state record, and the
effects a run performs are collected as an explicit event list in the
order the Python code performs them.  Machine time is modelled as
integers (seconds); Python exceptions are modelled with Option / Except.
-/

namespace RiftOracle

/-- The fixed tier list of the scraper (source line 17), lowest to
highest; "DIAMOND" is the topmost tier and comes last. -/
def TIERS : List String :=
  ["IRON", "BRONZE", "SILVER", "GOLD", "PLATINUM", "EMERALD", "DIAMOND"]

/-- The fixed division list of the scraper (source line 18). -/
def DIVISIONS : List String := ["I", "II", "III", "IV"]

/-- Default request budget of the rate limiter (source line 33). -/
def REQUEST_LIMIT : Nat := 100

/-- Default trailing window of the rate limiter, in seconds (source
line 34). -/
def WINDOW_SECONDS : Int := 120

/-! ## Model of Python `int()` applied to a string

`make_api_call` runs `int(response.headers.get("Retry-After", 10))`.
When the header is present its value is a string and Python `int`
parses an optional sign followed by digits (surrounding whitespace
allowed), raising `ValueError` otherwise; `none` models the raise. -/

/-- Parse a nonempty all-digit character list to a natural number. -/
def digitsToNat : List Char → Option Nat
  | [] => none
  | cs =>
    if cs.all Char.isDigit then
      some (cs.foldl (fun a c => 10 * a + (c.toNat - 48)) 0)
    else none

/-- Whitespace stripped by Python `int(s)` around the number. -/
def pySpace (c : Char) : Bool :=
  (c == ' ') || (c == '\t') || (c == '\n') || (c == '\r')

/-- Model of Python `int(s)` for a string `s`: strip whitespace, accept
an optional sign and digits; `none` models the `ValueError` raise. -/
def pyIntOfString (s : String) : Option Int :=
  match ((s.data.dropWhile pySpace).reverse.dropWhile pySpace).reverse with
  | [] => none
  | c :: rest =>
    if c = '-' then (digitsToNat rest).map (fun n => -(n : Int))
    else if c = '+' then (digitsToNat rest).map (fun n => (n : Int))
    else (digitsToNat (c :: rest)).map (fun n => (n : Int))

/-- Source line 73: `int(response.headers.get("Retry-After", 10))`.
An absent header yields the integer default 10; a present header is a
string handed to `int`, whose failure (`none`) models the raised
`ValueError` that the surrounding `except` turns into a `None` return. -/
def retryAfterSecs (h : Option String) : Option Int :=
  match h with
  | none => some 10
  | some s => pyIntOfString s

/-! ## Model of `make_api_call` (source lines 66-80)

One scripted HTTP response per loop iteration: a 429 carrying an
optional `Retry-After` header value, a success carrying the decoded
body, or any other failure (non-2xx status, transport or decoding
exception), which the `except` clause turns into a `None` return. -/

/-- A scripted HTTP response for one attempt of `make_api_call`. -/
inductive Resp where
  | r429 (retryAfter : Option String)
  | ok (body : String)
  | fail
  deriving DecidableEq

/-- Observable effects of `make_api_call`: how many times
`rate_limit_sleep` was entered (once per attempt) and the sequence of
`time.sleep` durations performed for 429 responses. -/
structure CallLog where
  admits : Nat
  sleeps : List Int
  deriving DecidableEq

/-- Model of `make_api_call` (source lines 66-80).  Each iteration
first enters the rate limiter (`admits + 1`), then consumes the next
scripted response.  A 429 with a usable `Retry-After` sleeps and
retries; an absent header sleeps the default 10; a present but
unparseable header makes `int` raise, and a negative parsed value makes
`time.sleep` raise, both caught by `except` and returned as `none`.
A success returns the body; any other outcome returns `none`.  An
exhausted script is treated as a transport failure. -/
def make_api_call : List Resp → CallLog → Option String × CallLog
  | [], log => (none, ⟨log.admits + 1, log.sleeps⟩)
  | r :: rest, log =>
    let log1 : CallLog := ⟨log.admits + 1, log.sleeps⟩
    match r with
    | .r429 h =>
      match retryAfterSecs h with
      | some n =>
        if n < 0 then (none, log1)
        else make_api_call rest ⟨log1.admits, log1.sleeps ++ [n]⟩
      | none => (none, log1)
    | .ok b => (some b, log1)
    | .fail => (none, log1)

/-! ## Model of `rate_limit_sleep` (source lines 53-63)

Timestamps are integers (seconds).  The function receives the current
time and the recorded admission timestamps, drops those at or older
than `now - W`, sleeps when the retained count reaches the limit, and
records `now` (the time captured before the sleep, exactly as the
Python code appends the `now` taken at entry). -/

/-- One admission: returns the slept duration and the new timestamp
list.  Mirrors source lines 53-63 step for step. -/
def rate_limit_sleep (limit : Nat) (W : Int) (now : Int) (ts : List Int) :
    Int × List Int :=
  let kept := ts.filter (fun t => now - W < t)
  if limit ≤ kept.length then
    (max (kept.headD 0 + W - now) 0, kept ++ [now])
  else
    (0, kept ++ [now])

/-- Run a sequence of admissions at the given call times, starting from
the given timestamp list; returns the per-call sleep durations and the
final timestamp list. -/
def admitSeq (limit : Nat) (W : Int) : List Int → List Int → List Int × List Int
  | [], ts => ([], ts)
  | now :: rest, ts =>
    let r := rate_limit_sleep limit W now ts
    let rr := admitSeq limit W rest r.2
    (r.1 :: rr.1, rr.2)

/-! ## Durable and in-memory state of the scraper

`World` holds the match files on disk (keyed by the folder coordinates
`(strToLower tier, division)` and the match id, source line 102), the CSV
index file (`none` while the file does not exist), and the in-memory
PUUID cache (a key-to-optional-value map; a cached `none` records a
failed lookup, source line 93). -/

/-- Events a run emits, in the order the Python code performs them. -/
inductive Ev where
  | bucketStart (tier division : String)
  | listPlayers (tier division : String) (page : Nat)
  | fetchSummoner (summonerId : String)
  | fetchMatches (puuid : String)
  | fetchDetail (matchId : String)
  | saveState (st : List ((String × String) × Nat))
  deriving DecidableEq

/-- The checkpoint mapping `(tier, division) to page`, the flattened
form of the nested JSON dict `state[tier][division]`. -/
abbrev StateMap := List ((String × String) × Nat)

/-- `state.get(tier, {}).get(division, 1)` (source line 136): the
stored page for the bucket, defaulting to 1. -/
def stGet : StateMap → String → String → Nat
  | [], _, _ => 1
  | kv :: rest, t, d => if kv.1 = (t, d) then kv.2 else stGet rest t d

/-- `state.setdefault(tier, {})[division] = page` (source line 162). -/
def stSet : StateMap → String → String → Nat → StateMap
  | [], t, d, p => [((t, d), p)]
  | kv :: rest, t, d, p =>
    if kv.1 = (t, d) then ((t, d), p) :: rest
    else kv :: stSet rest t d p

/-- `load_state` (source lines 42-46): the checkpoint file content when
it exists, an empty mapping when it does not. -/
def load_state : Option StateMap → StateMap
  | some m => m
  | none => []

/-- Durable and in-memory state touched by the scraper. -/
structure World where
  files : List (String × String × String)
  csv : Option (List (List String))
  cache : List (String × Option String)
  deriving DecidableEq

/-- Responses of the upstream API, one entry per endpoint, at the
granularity of one `make_api_call` result.  `players` returns the
summoner ids of a listing page (`[]` models both an empty page and a
failed call, which `if not players` treats alike); `puuid` is the
extracted puuid field of the summoner lookup (`none` models a failed
call or a missing field); `matchIds` is the match id list of
`get_matches` (`[]` models failure, via `or []`); `detail` is the match
payload (`none` models a failed call or a falsy payload). -/
structure Oracle where
  players : String → String → Nat → List String
  puuid : String → Option String
  matchIds : String → List String
  detail : String → Option String

/-- Python `tier.lower()`, modelled character by character. -/
def strToLower (s : String) : String := ⟨s.data.map Char.toLower⟩

/-- Key-presence lookup in the PUUID cache: `summoner_id in puuid_cache`
distinguishes a cached `None` from an absent key. -/
def lookupCache : List (String × Option String) → String → Option (Option String)
  | [], _ => none
  | kv :: rest, sid => if kv.1 = sid then some kv.2 else lookupCache rest sid

/-- The CSV header row written once when the index file does not yet
exist (source line 123). -/
def csvHeader : List String := ["match_id", "tier", "division"]

/-- `save_match_id_csv` (source lines 119-125): append one row, writing
the header first exactly when the file did not exist. -/
def save_match_id_csv (w : World) (matchId tier division : String) : World :=
  match w.csv with
  | none => { w with csv := some [csvHeader, [matchId, tier, division]] }
  | some rows => { w with csv := some (rows ++ [[matchId, tier, division]]) }

/-- Result of `save_match`: the returned boolean, the new world, and
the events emitted. -/
structure SaveOut where
  saved : Bool
  w : World
  ev : List Ev
  deriving DecidableEq

/-- `save_match` (source lines 100-117): if the match file already
exists under `matches/<tier.lower()>/<division>`, return `False`
without any call; otherwise fetch the match detail, and on success
write the file, append the CSV row and return `True`; on a failed call
return `False` leaving the world unchanged. -/
def save_match (o : Oracle) (w : World) (matchId tier division : String) : SaveOut :=
  if (strToLower tier, division, matchId) ∈ w.files then ⟨false, w, []⟩
  else
    match o.detail matchId with
    | some _ =>
      let w1 := { w with files := w.files ++ [(strToLower tier, division, matchId)] }
      ⟨true, save_match_id_csv w1 matchId tier division, [Ev.fetchDetail matchId]⟩
    | none => ⟨false, w, [Ev.fetchDetail matchId]⟩

/-- Result of `get_puuid`. -/
structure PuuidOut where
  pu : Option String
  w : World
  ev : List Ev
  deriving DecidableEq

/-- `get_puuid` (source lines 87-94): return the cached value when the
summoner id is a cache key (even when the cached value is `None`);
otherwise perform one lookup call, cache its result (including `None`)
and return it. -/
def get_puuid (o : Oracle) (w : World) (sid : String) : PuuidOut :=
  match lookupCache w.cache sid with
  | some v => ⟨v, w, []⟩
  | none =>
    ⟨o.puuid sid, { w with cache := w.cache ++ [(sid, o.puuid sid)] },
      [Ev.fetchSummoner sid]⟩

/-! ## Model of `collect_data` (source lines 127-170)

The while loop over pages is modelled with explicit fuel (a bound on
the number of page iterations per bucket); running out of fuel cuts the
bucket short exactly like the listing breaks do, and affects nothing
outside the bucket.  Results are records so that every component has a
name. -/

/-- Python truthiness of the puuid value: `if not puuid: continue`
skips both `None` and the empty string. -/
def truthyStr : Option String → Bool
  | none => false
  | some s => !s.isEmpty

/-- Result of the inner loops: the `collected` counter, the `done`
flag, the world, the emitted events. -/
structure LoopOut where
  c : Nat
  done : Bool
  w : World
  ev : List Ev
  deriving DecidableEq

/-- The `for match_id in matches[:5]` loop (source lines 155-160):
break with `done = True` once the quota is reached, otherwise try
`save_match` and count successes. -/
def processMatches (o : Oracle) (tier division : String) (quota : Nat) :
    List String → Nat → World → LoopOut
  | [], c, w => ⟨c, false, w, []⟩
  | mid :: rest, c, w =>
    if quota ≤ c then ⟨c, true, w, []⟩
    else
      let rs := save_match o w mid tier division
      let rr := processMatches o tier division quota rest
        (if rs.saved then c + 1 else c) rs.w
      ⟨rr.c, rr.done, rr.w, rs.ev ++ rr.ev⟩

/-- The `for player in players` loop (source lines 145-160): break with
`done = True` once the quota is reached, resolve the puuid (skipping
falsy results), fetch the match ids (one call, then `[:5]`) and run the
match loop. -/
def processPlayers (o : Oracle) (tier division : String) (quota : Nat) :
    List String → Nat → Bool → World → LoopOut
  | [], c, dn, w => ⟨c, dn, w, []⟩
  | sid :: rest, c, dn, w =>
    if quota ≤ c then ⟨c, true, w, []⟩
    else
      let rp := get_puuid o w sid
      if truthyStr rp.pu = false then
        let rr := processPlayers o tier division quota rest c dn rp.w
        ⟨rr.c, rr.done, rr.w, rp.ev ++ rr.ev⟩
      else
        let pu := rp.pu.getD ""
        let rm := processMatches o tier division quota
          ((o.matchIds pu).take 5) c rp.w
        let rr := processPlayers o tier division quota rest rm.c rm.done rm.w
        ⟨rr.c, rr.done, rr.w, rp.ev ++ Ev.fetchMatches pu :: rm.ev ++ rr.ev⟩

/-- Result of the page loop and of whole-run stages. -/
structure RunOut where
  st : StateMap
  w : World
  ev : List Ev
  deriving DecidableEq

/-- The `while collected < matches_per_tier and not done` loop (source
lines 141-165): list the players of the current page (the listing call
is emitted before the emptiness test), break on an empty or failed
listing without a checkpoint write, otherwise process the players,
write the checkpoint with the current page (`state[tier][division] =
page` then `save_state`), and continue with `page + 1`. -/
def processPages (o : Oracle) (tier division : String) (quota : Nat) :
    Nat → Nat → Nat → Bool → StateMap → World → RunOut
  | 0, _, _, _, st, w => ⟨st, w, []⟩
  | fuel + 1, page, c, dn, st, w =>
    if c < quota ∧ dn = false then
      let players := o.players tier division page
      if players.isEmpty then ⟨st, w, [Ev.listPlayers tier division page]⟩
      else
        let rp := processPlayers o tier division quota players c false w
        let st2 := stSet st tier division page
        let rr := processPages o tier division quota fuel (page + 1) rp.c rp.done st2 rp.w
        ⟨rr.st, rr.w,
          Ev.listPlayers tier division page :: rp.ev ++ Ev.saveState st2 :: rr.ev⟩
    else ⟨st, w, []⟩

/-- One bucket (source lines 132-165): log the bucket start, resume
from the checkpointed page (default 1) and run the page loop with
`collected = 0` and `done = False`. -/
def processBucket (o : Oracle) (quota fuel : Nat) (tier division : String)
    (st : StateMap) (w : World) : RunOut :=
  let r := processPages o tier division quota fuel (stGet st tier division) 0 false st w
  ⟨r.st, r.w, Ev.bucketStart tier division :: r.ev⟩

/-- `list(reversed(DIVISIONS)) if tier == "DIAMOND" else DIVISIONS`
(source line 131). -/
def divisionsFor (tier : String) : List String :=
  if tier = "DIAMOND" then DIVISIONS.reverse else DIVISIONS

/-- Result of the division loop: the extra `stop` flag models the
`return` on finishing Diamond I (source lines 167-170). -/
structure DivOut where
  st : StateMap
  w : World
  ev : List Ev
  stop : Bool
  deriving DecidableEq

/-- The `for division in divisions_to_process` loop, including the
`return` after finishing division I of DIAMOND. -/
def processDivisions (o : Oracle) (quota fuel : Nat) (tier : String) :
    List String → StateMap → World → DivOut
  | [], st, w => ⟨st, w, [], false⟩
  | dv :: rest, st, w =>
    let r := processBucket o quota fuel tier dv st w
    if tier = "DIAMOND" ∧ dv = "I" then ⟨r.st, r.w, r.ev, true⟩
    else
      let rr := processDivisions o quota fuel tier rest r.st r.w
      ⟨rr.st, rr.w, r.ev ++ rr.ev, rr.stop⟩

/-- The `for tier in TIERS` loop; a `stop` from the division loop is
the functions `return`, ending the whole run. -/
def processTiers (o : Oracle) (quota fuel : Nat) :
    List String → StateMap → World → RunOut
  | [], st, w => ⟨st, w, []⟩
  | t :: rest, st, w =>
    let r := processDivisions o quota fuel t (divisionsFor t) st w
    if r.stop then ⟨r.st, r.w, r.ev⟩
    else
      let rr := processTiers o quota fuel rest r.st r.w
      ⟨rr.st, rr.w, r.ev ++ rr.ev⟩

/-- `collect_data` (source lines 127-170): load the checkpoint file and
iterate the tiers over a fresh world (no files, no CSV file, empty
cache). -/
def collect_data (o : Oracle) (file : Option StateMap) (quota fuel : Nat) : RunOut :=
  processTiers o quota fuel TIERS (load_state file) ⟨[], none, []⟩

/-! ## Model of the module-level tail (source lines 172-175)

After the definitions, the module executes
`print(...)`, `x = int(input)`, and the `if __name__ == "__main__"`
guard calling `collect_data(matches_per_tier=100)`.  `input` is the
builtin function object, so `int(input)` raises `TypeError` before the
guard is reached.  The stdin line is a parameter of the model to record
that it is never read (`input` is not called). -/

/-- Python values relevant to the module tail. -/
inductive PyVal where
  | int (n : Int)
  | str (s : String)
  | builtinFn (name : String)
  deriving DecidableEq

/-- Python `int(v)`: accepts numbers and numeric strings, raises
`TypeError` on a function object. -/
def pyIntFn : PyVal → Except String Int
  | .int n => .ok n
  | .str s =>
    match pyIntOfString s with
    | some n => .ok n
    | none => .error "ValueError"
  | .builtinFn _ => .error "TypeError"

/-- Module tail (source lines 172-175), reached only when the
credential environment variable is set (the earlier guard at source
lines 11-13 raised otherwise): runs `x = int(input)` on the builtin
function object and, when that succeeds and the module is main, calls
`collect_data` with the literal quota 100.  `stdinLine` is whatever
stdin holds; the code never reads it. -/
def moduleTail (o : Oracle) (file : Option StateMap) (fuel : Nat)
    (isMain : Bool) (stdinLine : String) : Except String (Option RunOut) :=
  let _ := stdinLine
  match pyIntFn (PyVal.builtinFn "input") with
  | .error e => .error e
  | .ok _ => if isMain then .ok (some (collect_data o file 100 fuel)) else .ok none

/-! ## Event projections used by the theorems -/

/-- The buckets whose processing started, in order (the
`Processing tier division` log line). -/
def bucketStarts (l : List Ev) : List (String × String) :=
  l.filterMap fun e =>
    match e with
    | .bucketStart t d => some (t, d)
    | _ => none

/-- All pages requested from the player-listing endpoint for the given
bucket, in order. -/
def listingPages (t d : String) (l : List Ev) : List Nat :=
  l.filterMap fun e =>
    match e with
    | .listPlayers t2 d2 p => if t2 = t ∧ d2 = d then some p else none
    | _ => none

/-- The first page requested from the player-listing endpoint for the
given bucket, if any. -/
def firstListing (t d : String) (l : List Ev) : Option Nat :=
  (listingPages t d l).head?

/-- Events that are plain API fetches: the events the player and match
loops can emit (no listing, no checkpoint write, no bucket start). -/
def evApiOnly : Ev → Bool
  | .fetchSummoner _ => true
  | .fetchMatches _ => true
  | .fetchDetail _ => true
  | _ => false

/-- A small concrete oracle used by the witness theorems. -/
def testOracle : Oracle where
  players := fun _ _ p => if p = 1 then ["s1", "s2"] else []
  puuid := fun sid => if sid = "s1" then some "pu1" else none
  matchIds := fun _ => ["m1", "m2"]
  detail := fun _ => some "data"

/-- The value the given bucket has in each written checkpoint file, in
write order (what a resumed run would read back for that bucket). -/
def savedValues (t d : String) (l : List Ev) : List Nat :=
  l.filterMap fun e =>
    match e with
    | .saveState st => some (stGet st t d)
    | _ => none

/-! ## Helper lemmas -/

/-- Appending one CSV row never touches the file set or the cache. -/
theorem save_match_id_csv_files (w : World) (mid t d : String) :
    (save_match_id_csv w mid t d).files = w.files ∧
    (save_match_id_csv w mid t d).cache = w.cache := by
  cases hc : w.csv <;> simp [save_match_id_csv, hc]

/-- A cache hit returns the stored value, touching nothing. -/
theorem get_puuid_hit (o : Oracle) (w : World) (sid : String)
    (v : Option String) (h : lookupCache w.cache sid = some v) :
    get_puuid o w sid = ⟨v, w, []⟩ := by
  unfold get_puuid
  rw [h]

/-- A key freshly appended to the cache is found by `lookupCache`. -/
theorem lookupCache_append_self (c : List (String × Option String))
    (sid : String) (v : Option String) (h : lookupCache c sid = none) :
    lookupCache (c ++ [(sid, v)]) sid = some v := by
  induction c with
  | nil => simp [lookupCache]
  | cons kv rest ih =>
    by_cases hk : kv.1 = sid
    · simp [lookupCache, hk] at h
    · simp only [lookupCache, if_neg hk] at h
      simp only [List.cons_append, lookupCache, if_neg hk]
      exact ih h

/-- `admitSeq` splits over list concatenation. -/
theorem admitSeq_append (limit : Nat) (W : Int) (xs ys ts : List Int) :
    admitSeq limit W (xs ++ ys) ts
      = ((admitSeq limit W xs ts).1
           ++ (admitSeq limit W ys (admitSeq limit W xs ts).2).1,
         (admitSeq limit W ys (admitSeq limit W xs ts).2).2) := by
  induction xs generalizing ts with
  | nil => simp [admitSeq]
  | cons x xs ih => simp [admitSeq, ih]

/-- With a positive window, admissions all at one instant fill the
budget without sleeping while the retained count stays below the
limit. -/
theorem admitSeq_replicate_fill (limit : Nat) (W t0 : Int) (hW : 0 < W) :
    ∀ k m, m + k ≤ limit →
      admitSeq limit W (List.replicate k t0) (List.replicate m t0)
        = (List.replicate k 0, List.replicate (m + k) t0) := by
  intro k
  induction k with
  | zero => intro m _; simp [admitSeq]
  | succ k ih =>
    intro m h
    have hfilter : (List.replicate m t0).filter (fun t => t0 - W < t)
        = List.replicate m t0 := by
      apply List.filter_eq_self.mpr
      intro a ha
      rw [List.eq_of_mem_replicate ha]
      simp only [decide_eq_true_eq]
      omega
    have hlen : ¬ limit ≤ (List.replicate m t0 : List Int).length := by
      rw [List.length_replicate]
      omega
    have hr : rate_limit_sleep limit W t0 (List.replicate m t0)
        = (0, List.replicate (m + 1) t0) := by
      simp only [rate_limit_sleep, hfilter, if_neg hlen, ← List.replicate_succ']
    rw [List.replicate_succ]
    simp only [admitSeq, hr]
    rw [ih (m + 1) (by omega)]
    have hmk : m + 1 + k = m + (k + 1) := by omega
    simp [List.replicate_succ, hmk]

/-- Part one of the rate-limiter bound: after `limit` instantaneous
admissions, the next admission at the same instant sleeps the whole
window. -/
theorem admitSeq_overload (limit : Nat) (W t0 : Int)
    (hlim : 1 ≤ limit) (hW : 0 < W) :
    (admitSeq limit W (List.replicate (limit + 1) t0) []).1
      = List.replicate limit 0 ++ [W] := by
  have hsplit : List.replicate (limit + 1) t0
      = List.replicate limit t0 ++ [t0] := by
    rw [List.replicate_succ']
  have hfill := admitSeq_replicate_fill limit W t0 hW limit 0 (by omega)
  simp only [Nat.zero_add] at hfill
  have hzero : (List.replicate 0 t0 : List Int) = [] := rfl
  have hfilter : (List.replicate limit t0).filter (fun t => t0 - W < t)
      = List.replicate limit t0 := by
    apply List.filter_eq_self.mpr
    intro a ha
    rw [List.eq_of_mem_replicate ha]
    simp only [decide_eq_true_eq]
    omega
  have hlen : limit ≤ (List.replicate limit t0 : List Int).length := by
    rw [List.length_replicate]
  have hhead : (List.replicate limit t0).headD 0 = t0 := by
    cases limit with
    | zero => omega
    | succ k => rw [List.replicate_succ, List.headD_cons]
  have hone : (admitSeq limit W [t0] (List.replicate limit t0)).1
      = [(rate_limit_sleep limit W t0 (List.replicate limit t0)).1] := rfl
  have hr : (rate_limit_sleep limit W t0 (List.replicate limit t0)).1 = W := by
    simp only [rate_limit_sleep, hfilter, if_pos hlen, hhead]
    omega
  rw [hzero] at hfill
  rw [hsplit, admitSeq_append, hfill]
  dsimp only
  rw [hone, hr]

/-- Part two of the rate-limiter bound, generalized for induction.
`ps` is the list of admission instants already processed, `ts` the
recorded timestamp state; the invariant says `ts` filters like `ps`
for any cutoff at or after every processed instant. -/
theorem admitSeq_no_sleep_aux (limit : Nat) (W : Int) :
    ∀ (xs ps ts : List Int),
      xs.Sorted (· ≤ ·) →
      (∀ p ∈ ps, ∀ x ∈ xs, p ≤ x) →
      (∀ c : Int, (∀ p ∈ ps, p ≤ c) →
        ts.filter (fun t => c - W < t) = ps.filter (fun t => c - W < t)) →
      (∀ k, k < xs.length →
        ((ps ++ xs.take k).filter (fun t => xs.getD k 0 - W < t)).length < limit) →
      (admitSeq limit W xs ts).1 = List.replicate xs.length 0 := by
  intro xs
  induction xs with
  | nil => intro ps ts _ _ _ _; rfl
  | cons x rest ih =>
    intro ps ts hsorted hple hInv hcnt
    obtain ⟨hx, hrest⟩ := List.sorted_cons.mp hsorted
    have hkept : ts.filter (fun t => x - W < t) = ps.filter (fun t => x - W < t) :=
      hInv x (fun p hp => hple p hp x (List.mem_cons_self x rest))
    have hcnt0 := hcnt 0 (by simp)
    simp only [List.take_zero, List.append_nil, List.getD_cons_zero] at hcnt0
    have hlen : ¬ limit ≤ (ts.filter (fun t => x - W < t)).length := by
      rw [hkept]; omega
    have hrec : (admitSeq limit W rest (ps.filter (fun t => x - W < t) ++ [x])).1
        = List.replicate rest.length 0 := by
      apply ih (ps ++ [x])
      · exact hrest
      · intro p hp y hy
        rcases List.mem_append.mp hp with h1 | h1
        · exact hple p h1 y (List.mem_cons_of_mem x hy)
        · rw [List.mem_singleton.mp h1]
          exact hx y hy
      · intro c hc
        have hxc : x ≤ c := hc x (List.mem_append_right _ (List.mem_singleton.mpr rfl))
        rw [List.filter_append, List.filter_append]
        congr 1
        rw [List.filter_filter]
        apply List.filter_congr
        intro a _
        by_cases hca : c - W < a
        · have hxa : x - W < a := by omega
          simp [hca, hxa]
        · simp [hca]
      · intro k hk
        have := hcnt (k + 1) (by simp; omega)
        simp only [List.take_succ_cons, List.getD_cons_succ] at this
        rw [List.append_assoc]
        simpa [List.singleton_append] using this
    have hlen2 : ¬ limit ≤ (ps.filter (fun t => x - W < t)).length := by omega
    have hr : rate_limit_sleep limit W x ts
        = (0, ps.filter (fun t => x - W < t) ++ [x]) := by
      simp only [rate_limit_sleep, hkept, if_neg hlen2]
    show ((rate_limit_sleep limit W x ts).1
        :: (admitSeq limit W rest (rate_limit_sleep limit W x ts).2).1, _).1
      = List.replicate (x :: rest).length 0
    rw [hr]
    dsimp only
    rw [hrec, List.length_cons, List.replicate_succ]

/-- Claim C3: (1) after `limit` admissions at one instant `t0`, the
next admission at that instant sleeps exactly the window `W` — its
return time is `t0 + W`, not before the window has elapsed since the
first recorded timestamp; the first `limit` calls sleep 0.  (2) A call
sequence at nondecreasing times that always has fewer than `limit`
prior admissions inside the trailing window never sleeps. -/
theorem rate_limit_window_enforced :
    (∀ (limit : Nat) (W t0 : Int), 1 ≤ limit → 0 < W →
      (admitSeq limit W (List.replicate (limit + 1) t0) []).1
        = List.replicate limit 0 ++ [W])
    ∧ (∀ (limit : Nat) (W : Int) (xs : List Int), xs.Sorted (· ≤ ·) →
      (∀ k, k < xs.length →
        ((xs.take k).filter (fun t => xs.getD k 0 - W < t)).length < limit) →
      (admitSeq limit W xs []).1 = List.replicate xs.length 0) := by
  constructor
  · intro limit W t0 hlim hW
    exact admitSeq_overload limit W t0 hlim hW
  · intro limit W xs hsorted hcnt
    apply admitSeq_no_sleep_aux limit W xs [] []
    · exact hsorted
    · intro p hp
      simp at hp
    · intro c _
      rfl
    · intro k hk
      simpa using hcnt k hk

/-- Witness for C3 at concrete inputs: limit 2, window 5; three calls
at instant 0 sleep [0, 0, 5]; three well-spaced calls never sleep. -/
theorem rate_limit_window_enforced_witness :
    ((1 ≤ 2 ∧ (0 : Int) < 5)
      ∧ (admitSeq 2 5 (List.replicate (2 + 1) (0 : Int)) []).1
          = List.replicate 2 0 ++ [5])
    ∧ (((([0, 10, 20] : List Int).Sorted (· ≤ ·))
      ∧ (∀ k, k < ([0, 10, 20] : List Int).length →
          ((([0, 10, 20] : List Int).take k).filter
            (fun t => ([0, 10, 20] : List Int).getD k 0 - 5 < t)).length < 2))
      ∧ (admitSeq 2 5 [0, 10, 20] []).1
          = List.replicate ([0, 10, 20] : List Int).length 0) :=
  ⟨⟨⟨by decide, by decide⟩,
    rate_limit_window_enforced.1 2 5 0 (by decide) (by decide)⟩,
   ⟨⟨by decide, by decide⟩,
    rate_limit_window_enforced.2 2 5 [0, 10, 20] (by decide) (by decide)⟩⟩

/-- Writing a bucket entry makes `stGet` read it back. -/
theorem stGet_stSet_self : ∀ (st : StateMap) (t d : String) (p : Nat),
    stGet (stSet st t d p) t d = p := by
  intro st t d p
  induction st with
  | nil => simp [stSet, stGet]
  | cons kv rest ih =>
    by_cases hk : kv.1 = (t, d)
    · simp [stSet, hk, stGet]
    · simp only [stSet, if_neg hk, stGet, ih, if_neg hk]

/-- Writing a bucket entry leaves every other bucket unchanged. -/
theorem stGet_stSet_ne : ∀ (st : StateMap) (t d : String) (p : Nat)
    (t2 d2 : String), (t2, d2) ≠ (t, d) →
    stGet (stSet st t d p) t2 d2 = stGet st t2 d2 := by
  intro st t d p t2 d2 hne
  have hne2 : ((t, d) : String × String) ≠ (t2, d2) := fun h => hne h.symm
  induction st with
  | nil => simp [stSet, stGet, hne2]
  | cons kv rest ih =>
    by_cases hk : kv.1 = (t, d)
    · rw [show stSet (kv :: rest) t d p = ((t, d), p) :: rest by simp [stSet, hk]]
      show (if ((t, d), p).1 = (t2, d2) then p else stGet rest t2 d2) = stGet (kv :: rest) t2 d2
      rw [if_neg hne2]
      show stGet rest t2 d2 = (if kv.1 = (t2, d2) then kv.2 else stGet rest t2 d2)
      rw [hk, if_neg hne2]
    · rw [show stSet (kv :: rest) t d p = kv :: stSet rest t d p by simp [stSet, hk]]
      show (if kv.1 = (t2, d2) then kv.2 else stGet (stSet rest t d p) t2 d2)
        = stGet (kv :: rest) t2 d2
      show _ = (if kv.1 = (t2, d2) then kv.2 else stGet rest t2 d2)
      rw [ih]

/-- `bucketStarts` ignores a list of plain API fetch events. -/
theorem bucketStarts_api (l : List Ev) (h : ∀ e ∈ l, evApiOnly e = true) :
    bucketStarts l = [] := by
  apply List.filterMap_eq_nil.mpr
  intro e he
  have := h e he
  cases e <;> simp_all [evApiOnly, bucketStarts]

/-- `listingPages` ignores a list of plain API fetch events. -/
theorem listingPages_api (t d : String) (l : List Ev)
    (h : ∀ e ∈ l, evApiOnly e = true) : listingPages t d l = [] := by
  apply List.filterMap_eq_nil.mpr
  intro e he
  have := h e he
  cases e <;> simp_all [evApiOnly, listingPages]

/-- `savedValues` ignores a list of plain API fetch events. -/
theorem savedValues_api (t d : String) (l : List Ev)
    (h : ∀ e ∈ l, evApiOnly e = true) : savedValues t d l = [] := by
  apply List.filterMap_eq_nil.mpr
  intro e he
  have := h e he
  cases e <;> simp_all [evApiOnly, savedValues]

/-- `save_match` emits at most the one match-detail fetch. -/
theorem save_match_ev_api (o : Oracle) (w : World) (mid t d : String) :
    ∀ e ∈ (save_match o w mid t d).ev, evApiOnly e = true := by
  intro e he
  unfold save_match at he
  split at he
  · simp at he
  · split at he <;> simp at he <;> rw [he] <;> rfl

/-- `get_puuid` emits at most the one summoner fetch. -/
theorem get_puuid_ev_api (o : Oracle) (w : World) (sid : String) :
    ∀ e ∈ (get_puuid o w sid).ev, evApiOnly e = true := by
  intro e he
  unfold get_puuid at he
  split at he
  · simp at he
  · simp at he
    rw [he]
    rfl

/-- The match loop emits only plain API fetch events. -/
theorem processMatches_ev_api (o : Oracle) (t d : String) (quota : Nat) :
    ∀ (ms : List String) (c : Nat) (w : World),
      ∀ e ∈ (processMatches o t d quota ms c w).ev, evApiOnly e = true := by
  intro ms
  induction ms with
  | nil => intro c w e he; simp [processMatches] at he
  | cons mid rest ih =>
    intro c w e he
    by_cases hq : quota ≤ c
    · simp [processMatches, hq] at he
    · simp only [processMatches, if_neg hq, List.mem_append] at he
      rcases he with h1 | h1
      · exact save_match_ev_api o w mid t d e h1
      · exact ih _ _ e h1

/-- The player loop emits only plain API fetch events. -/
theorem processPlayers_ev_api (o : Oracle) (t d : String) (quota : Nat) :
    ∀ (ps : List String) (c : Nat) (dn : Bool) (w : World),
      ∀ e ∈ (processPlayers o t d quota ps c dn w).ev, evApiOnly e = true := by
  intro ps
  induction ps with
  | nil => intro c dn w e he; simp [processPlayers] at he
  | cons sid rest ih =>
    intro c dn w e he
    by_cases hq : quota ≤ c
    · simp [processPlayers, hq] at he
    · by_cases ht : truthyStr (get_puuid o w sid).pu = false
      · simp only [processPlayers, if_neg hq, if_pos ht, List.mem_append] at he
        rcases he with h1 | h1
        · exact get_puuid_ev_api o w sid e h1
        · exact ih _ _ _ e h1
      · simp only [processPlayers, if_neg hq, if_neg ht] at he
        rcases List.mem_append.mp he with h1 | h1
        · rcases List.mem_append.mp h1 with h2 | h2
          · exact get_puuid_ev_api o w sid e h2
          · rcases List.mem_cons.mp h2 with h3 | h3
            · rw [h3]; rfl
            · exact processMatches_ev_api o t d quota _ _ _ e h3
        · exact ih _ _ _ e h1

theorem bucketStarts_append (l1 l2 : List Ev) :
    bucketStarts (l1 ++ l2) = bucketStarts l1 ++ bucketStarts l2 :=
  List.filterMap_append l1 l2 _

theorem bucketStarts_cons_start (t d : String) (l : List Ev) :
    bucketStarts (Ev.bucketStart t d :: l) = (t, d) :: bucketStarts l := rfl

theorem bucketStarts_cons_listing (t d : String) (p : Nat) (l : List Ev) :
    bucketStarts (Ev.listPlayers t d p :: l) = bucketStarts l := rfl

theorem bucketStarts_cons_save (st : StateMap) (l : List Ev) :
    bucketStarts (Ev.saveState st :: l) = bucketStarts l := rfl

theorem listingPages_append (t d : String) (l1 l2 : List Ev) :
    listingPages t d (l1 ++ l2) = listingPages t d l1 ++ listingPages t d l2 :=
  List.filterMap_append l1 l2 _

theorem listingPages_cons_self (t d : String) (p : Nat) (l : List Ev) :
    listingPages t d (Ev.listPlayers t d p :: l) = p :: listingPages t d l := by
  simp [listingPages]

theorem listingPages_cons_listing_ne (te de t d : String) (p : Nat) (l : List Ev)
    (h : ¬(te = t ∧ de = d)) :
    listingPages t d (Ev.listPlayers te de p :: l) = listingPages t d l := by
  simp [listingPages, h]

theorem listingPages_cons_start (te de t d : String) (l : List Ev) :
    listingPages t d (Ev.bucketStart te de :: l) = listingPages t d l := rfl

theorem listingPages_cons_save (st : StateMap) (t d : String) (l : List Ev) :
    listingPages t d (Ev.saveState st :: l) = listingPages t d l := rfl

theorem savedValues_append (t d : String) (l1 l2 : List Ev) :
    savedValues t d (l1 ++ l2) = savedValues t d l1 ++ savedValues t d l2 :=
  List.filterMap_append l1 l2 _

theorem savedValues_cons_save (st : StateMap) (t d : String) (l : List Ev) :
    savedValues t d (Ev.saveState st :: l) = stGet st t d :: savedValues t d l := rfl

theorem savedValues_cons_listing (te de t d : String) (p : Nat) (l : List Ev) :
    savedValues t d (Ev.listPlayers te de p :: l) = savedValues t d l := rfl

theorem savedValues_cons_start (te de t d : String) (l : List Ev) :
    savedValues t d (Ev.bucketStart te de :: l) = savedValues t d l := rfl

/-- If the first event list has a listing for the bucket, it decides
the first listing of the concatenation. -/
theorem firstListing_append_of_some (t d : String) (l1 l2 : List Ev) (p : Nat)
    (h : firstListing t d l1 = some p) :
    firstListing t d (l1 ++ l2) = some p := by
  unfold firstListing at h ⊢
  rw [listingPages_append]
  cases hl : listingPages t d l1 with
  | nil => rw [hl] at h; simp at h
  | cons a rest =>
    rw [hl] at h
    simp only [List.head?_cons, Option.some.injEq] at h
    simp [h]

/-- If the first event list has no listing for the bucket, the first
listing of the concatenation is that of the second. -/
theorem firstListing_append_of_none (t d : String) (l1 l2 : List Ev)
    (h : firstListing t d l1 = none) :
    firstListing t d (l1 ++ l2) = firstListing t d l2 := by
  unfold firstListing at h ⊢
  rw [listingPages_append]
  cases hl : listingPages t d l1 with
  | nil => simp
  | cons a rest => rw [hl] at h; simp at h

/-- Shifting a consecutive page range by one step. -/
theorem range_map_add_succ (p k : Nat) :
    (List.range (k + 1)).map (fun i => p + i)
      = p :: (List.range k).map (fun i => p + 1 + i) := by
  rw [List.range_succ_eq_map, List.map_cons, List.map_map]
  have hf : ((fun i => p + i) ∘ Nat.succ) = (fun i => p + 1 + i) := by
    funext i
    simp [Function.comp]
    omega
  rw [hf, Nat.add_zero]

/-- The head of a nonempty consecutive page range. -/
theorem head_range_map (p m : Nat) (hm : 1 ≤ m) :
    ((List.range m).map (fun i => p + i)).head? = some p := by
  cases m with
  | zero => omega
  | succ m => rw [range_map_add_succ]; rfl

/-- A consecutive page range is sorted. -/
theorem sorted_range_map (p k : Nat) :
    ((List.range k).map (fun i => p + i)).Sorted (· ≤ ·) := by
  refine List.Pairwise.map (fun i => p + i) ?_ (List.pairwise_lt_range k)
  intro a b hab
  show p + a ≤ p + b
  omega

/-- Pages in a consecutive range starting at a positive page are
positive. -/
theorem mem_range_map_pos (p k : Nat) (hp : 1 ≤ p) :
    ∀ v ∈ (List.range k).map (fun i => p + i), 1 ≤ v := by
  intro v hv
  simp only [List.mem_map] at hv
  obtain ⟨i, _, rfl⟩ := hv
  omega

/-- A checkpoint map with positive entries reads back positive pages
for every bucket. -/
theorem stGet_pos (st : StateMap) (t d : String)
    (h : ∀ kv ∈ st, 1 ≤ kv.2) : 1 ≤ stGet st t d := by
  induction st with
  | nil => exact Nat.le_refl 1
  | cons kv rest ih =>
    show 1 ≤ (if kv.1 = (t, d) then kv.2 else stGet rest t d)
    by_cases hk : kv.1 = (t, d)
    · rw [if_pos hk]
      exact h kv (List.mem_cons_self kv rest)
    · rw [if_neg hk]
      exact ih fun x hx => h x (List.mem_cons_of_mem kv hx)

/-- The page loop starts no bucket. -/
theorem processPages_bucketStarts (o : Oracle) (t d : String) (quota : Nat) :
    ∀ (fuel page c : Nat) (dn : Bool) (st : StateMap) (w : World),
      bucketStarts (processPages o t d quota fuel page c dn st w).ev = [] := by
  intro fuel
  induction fuel with
  | zero => intro page c dn st w; rfl
  | succ fuel ih =>
    intro page c dn st w
    by_cases hc : c < quota ∧ dn = false
    · by_cases hp : (o.players t d page).isEmpty
      · simp only [processPages, if_pos hc, if_pos hp]
        rfl
      · simp only [processPages, if_pos hc, if_neg hp]
        rw [bucketStarts_append, bucketStarts_cons_listing, bucketStarts_cons_save,
          bucketStarts_api _ (processPlayers_ev_api o t d quota _ _ _ _), ih]
        rfl
    · simp only [processPages, if_neg hc]
      rfl

/-- The page loop of one bucket requests listings only for that
bucket. -/
theorem processPages_listing_ne (o : Oracle) (t d t2 d2 : String) (quota : Nat)
    (hne : ¬(t = t2 ∧ d = d2)) :
    ∀ (fuel page c : Nat) (dn : Bool) (st : StateMap) (w : World),
      listingPages t2 d2 (processPages o t d quota fuel page c dn st w).ev = [] := by
  intro fuel
  induction fuel with
  | zero => intro page c dn st w; rfl
  | succ fuel ih =>
    intro page c dn st w
    by_cases hc : c < quota ∧ dn = false
    · by_cases hp : (o.players t d page).isEmpty
      · simp only [processPages, if_pos hc, if_pos hp]
        rw [listingPages_cons_listing_ne t d t2 d2 _ _ hne]
        rfl
      · simp only [processPages, if_pos hc, if_neg hp]
        rw [listingPages_append, listingPages_cons_listing_ne t d t2 d2 _ _ hne,
          listingPages_cons_save,
          listingPages_api t2 d2 _ (processPlayers_ev_api o t d quota _ _ _ _), ih]
        rfl
    · simp only [processPages, if_neg hc]
      rfl

/-- Behaviour of the page loop for its own bucket: the checkpoint
values written for the bucket are exactly the consecutive pages
processed, starting at the entry page; the listed pages are the same
range, possibly one longer when the final listing came back empty (the
loop then breaks without a write); at least one listing happens
whenever the loop body can run; and the entries of every other bucket
are left untouched. -/
theorem processPages_spec (o : Oracle) (t d : String) (quota : Nat) :
    ∀ (fuel page c : Nat) (dn : Bool) (st : StateMap) (w : World),
      ∃ k m : Nat,
        savedValues t d (processPages o t d quota fuel page c dn st w).ev
          = (List.range k).map (fun i => page + i)
        ∧ listingPages t d (processPages o t d quota fuel page c dn st w).ev
          = (List.range m).map (fun i => page + i)
        ∧ (m = k ∨ m = k + 1)
        ∧ ((c < quota ∧ dn = false ∧ 1 ≤ fuel) → 1 ≤ m)
        ∧ ∀ t2 d2, (t2, d2) ≠ (t, d) →
            stGet (processPages o t d quota fuel page c dn st w).st t2 d2
              = stGet st t2 d2 := by
  intro fuel
  induction fuel with
  | zero =>
    intro page c dn st w
    refine ⟨0, 0, rfl, rfl, Or.inl rfl, ?_, fun t2 d2 _ => rfl⟩
    intro h
    omega
  | succ fuel ih =>
    intro page c dn st w
    by_cases hc : c < quota ∧ dn = false
    · by_cases hp : (o.players t d page).isEmpty
      · refine ⟨0, 1, ?_, ?_, Or.inr rfl, fun _ => Nat.le_refl 1, fun t2 d2 _ => ?_⟩
        · simp only [processPages, if_pos hc, if_pos hp]
          rfl
        · simp only [processPages, if_pos hc, if_pos hp]
          rw [listingPages_cons_self]
          have h0 : (List.range 1).map (fun i => page + i) = [page + 0] := rfl
          rw [h0, Nat.add_zero]
          rfl
        · simp only [processPages, if_pos hc, if_pos hp]
      · obtain ⟨k, m, h1, h2, h3, h4, h5⟩ := ih (page + 1)
          (processPlayers o t d quota (o.players t d page) c false w).c
          (processPlayers o t d quota (o.players t d page) c false w).done
          (stSet st t d page)
          (processPlayers o t d quota (o.players t d page) c false w).w
        refine ⟨k + 1, m + 1, ?_, ?_, ?_, fun _ => by omega, ?_⟩
        · simp only [processPages, if_pos hc, if_neg hp]
          rw [savedValues_append, savedValues_cons_listing, savedValues_cons_save,
            savedValues_api t d _ (processPlayers_ev_api o t d quota _ _ _ _), h1,
            stGet_stSet_self, range_map_add_succ]
          rfl
        · simp only [processPages, if_pos hc, if_neg hp]
          rw [listingPages_append, listingPages_cons_self, listingPages_cons_save,
            listingPages_api t d _ (processPlayers_ev_api o t d quota _ _ _ _), h2,
            range_map_add_succ]
          rfl
        · rcases h3 with h3 | h3
          · exact Or.inl (by omega)
          · exact Or.inr (by omega)
        · intro t2 d2 hne
          simp only [processPages, if_pos hc, if_neg hp]
          rw [h5 t2 d2 hne, stGet_stSet_ne st t d page t2 d2 hne]
    · refine ⟨0, 0, ?_, ?_, Or.inl rfl, ?_, fun t2 d2 _ => ?_⟩
      · simp only [processPages, if_neg hc]
        rfl
      · simp only [processPages, if_neg hc]
        rfl
      · intro h
        exact absurd ⟨h.1, h.2.1⟩ hc
      · simp only [processPages, if_neg hc]

/-- One bucket run logs exactly its own bucket start. -/
theorem processBucket_bucketStarts (o : Oracle) (quota fuel : Nat) (t d : String)
    (st : StateMap) (w : World) :
    bucketStarts (processBucket o quota fuel t d st w).ev = [(t, d)] := by
  simp only [processBucket]
  rw [bucketStarts_cons_start, processPages_bucketStarts]

/-- One bucket run emits no listing of a different bucket. -/
theorem processBucket_listing_ne (o : Oracle) (quota fuel : Nat)
    (t d t2 d2 : String) (st : StateMap) (w : World) (hne : ¬(t = t2 ∧ d = d2)) :
    listingPages t2 d2 (processBucket o quota fuel t d st w).ev = [] := by
  simp only [processBucket]
  rw [listingPages_cons_start, processPages_listing_ne o t d t2 d2 quota hne]

/-- One bucket run emits no first listing of a different bucket. -/
theorem processBucket_firstListing_ne (o : Oracle) (quota fuel : Nat)
    (t d t2 d2 : String) (st : StateMap) (w : World) (hne : ¬(t = t2 ∧ d = d2)) :
    firstListing t2 d2 (processBucket o quota fuel t d st w).ev = none := by
  unfold firstListing
  rw [processBucket_listing_ne o quota fuel t d t2 d2 st w hne]
  rfl

/-- One bucket run leaves the checkpoint entries of all other buckets
unchanged. -/
theorem processBucket_st_ne (o : Oracle) (quota fuel : Nat)
    (t d t2 d2 : String) (st : StateMap) (w : World) (hne : (t2, d2) ≠ (t, d)) :
    stGet (processBucket o quota fuel t d st w).st t2 d2 = stGet st t2 d2 := by
  simp only [processBucket]
  obtain ⟨k, m, _, _, _, _, h5⟩ :=
    processPages_spec o t d quota fuel (stGet st t d) 0 false st w
  exact h5 t2 d2 hne

/-- With positive quota and fuel, the first listing a bucket requests
is for its checkpointed page. -/
theorem processBucket_firstListing (o : Oracle) (quota fuel : Nat)
    (t d : String) (st : StateMap) (w : World)
    (hq : 1 ≤ quota) (hf : 1 ≤ fuel) :
    firstListing t d (processBucket o quota fuel t d st w).ev
      = some (stGet st t d) := by
  obtain ⟨k, m, _, h2, _, h4, _⟩ :=
    processPages_spec o t d quota fuel (stGet st t d) 0 false st w
  have hm : 1 ≤ m := h4 ⟨by omega, rfl, hf⟩
  simp only [processBucket]
  unfold firstListing
  rw [listingPages_cons_start, h2]
  exact head_range_map _ m hm

/-- A division loop of a tier other than DIAMOND never stops the
run. -/
theorem processDivisions_stop_ne (o : Oracle) (quota fuel : Nat) (t : String)
    (h : t ≠ "DIAMOND") :
    ∀ (ds : List String) (st : StateMap) (w : World),
      (processDivisions o quota fuel t ds st w).stop = false := by
  intro ds
  induction ds with
  | nil => intro st w; rfl
  | cons dv rest ih =>
    intro st w
    have hcond : ¬(t = "DIAMOND" ∧ dv = "I") := fun hx => h hx.1
    simp only [processDivisions, if_neg hcond]
    exact ih _ _

/-- A division loop emits no listing of a bucket in another tier. -/
theorem processDivisions_listing_ne (o : Oracle) (quota fuel : Nat)
    (t t2 d2 : String) (hx : t2 ≠ t) :
    ∀ (ds : List String) (st : StateMap) (w : World),
      listingPages t2 d2 (processDivisions o quota fuel t ds st w).ev = [] := by
  intro ds
  induction ds with
  | nil => intro st w; rfl
  | cons dv rest ih =>
    intro st w
    have hne : ¬(t = t2 ∧ dv = d2) := fun hcon => hx hcon.1.symm
    simp only [processDivisions]
    by_cases hstop : t = "DIAMOND" ∧ dv = "I"
    · rw [if_pos hstop]
      exact processBucket_listing_ne o quota fuel t dv t2 d2 st w hne
    · rw [if_neg hstop]
      rw [listingPages_append,
        processBucket_listing_ne o quota fuel t dv t2 d2 st w hne, ih]
      rfl

/-- A division loop leaves the checkpoint entries of other tiers
unchanged. -/
theorem processDivisions_st_ne (o : Oracle) (quota fuel : Nat)
    (t t2 d2 : String) (hx : t2 ≠ t) :
    ∀ (ds : List String) (st : StateMap) (w : World),
      stGet (processDivisions o quota fuel t ds st w).st t2 d2
        = stGet st t2 d2 := by
  intro ds
  induction ds with
  | nil => intro st w; rfl
  | cons dv rest ih =>
    intro st w
    have hne : ((t2, d2) : String × String) ≠ (t, dv) :=
      fun hcon => hx (congrArg Prod.fst hcon)
    simp only [processDivisions]
    by_cases hstop : t = "DIAMOND" ∧ dv = "I"
    · rw [if_pos hstop]
      exact processBucket_st_ne o quota fuel t dv t2 d2 st w hne
    · rw [if_neg hstop]
      rw [ih, processBucket_st_ne o quota fuel t dv t2 d2 st w hne]

/-- Inside one tier, the first listing of a division in the iteration
list is for that division's checkpointed page, provided the run is not
stopped before reaching it (for DIAMOND, "I" does not occur strictly
before the division). -/
theorem processDivisions_firstListing (o : Oracle) (quota fuel : Nat)
    (t d : String) (hq : 1 ≤ quota) (hf : 1 ≤ fuel) :
    ∀ (ds : List String) (st : StateMap) (w : World), d ∈ ds →
      (t = "DIAMOND" → "I" ∉ ds.takeWhile (fun x => x ≠ d)) →
      firstListing t d (processDivisions o quota fuel t ds st w).ev
        = some (stGet st t d) := by
  intro ds
  induction ds with
  | nil => intro st w hmem _; simp at hmem
  | cons dv rest ih =>
    intro st w hmem hI
    by_cases hdv : dv = d
    · subst hdv
      simp only [processDivisions]
      have hfirst := processBucket_firstListing o quota fuel t dv st w hq hf
      by_cases hstop : t = "DIAMOND" ∧ dv = "I"
      · rw [if_pos hstop]
        exact hfirst
      · rw [if_neg hstop]
        exact firstListing_append_of_some t dv _ _ _ hfirst
    · have hmem2 : d ∈ rest := by
        rcases List.mem_cons.mp hmem with hcon | hok
        · exact absurd hcon.symm hdv
        · exact hok
      have htake : (dv :: rest).takeWhile (fun x => x ≠ d)
          = dv :: rest.takeWhile (fun x => x ≠ d) := by
        simp [List.takeWhile_cons, hdv]
      have hstop : ¬(t = "DIAMOND" ∧ dv = "I") := by
        intro hx
        apply hI hx.1
        rw [htake, ← hx.2]
        exact List.mem_cons_self dv _
      have hI2 : t = "DIAMOND" → "I" ∉ rest.takeWhile (fun x => x ≠ d) := by
        intro hD hmem3
        apply hI hD
        rw [htake]
        exact List.mem_cons_of_mem dv hmem3
      simp only [processDivisions, if_neg hstop]
      have hnone : firstListing t d (processBucket o quota fuel t dv st w).ev
          = none :=
        processBucket_firstListing_ne o quota fuel t dv t d st w
          (fun hcon => hdv hcon.2)
      rw [firstListing_append_of_none t d _ _ hnone]
      have hres := ih (processBucket o quota fuel t dv st w).st
        (processBucket o quota fuel t dv st w).w hmem2 hI2
      rw [processBucket_st_ne o quota fuel t dv t d st w
        (fun hcon => hdv (congrArg Prod.snd hcon).symm)] at hres
      exact hres

/-- Across the run, the first listing for a bucket is for its
checkpointed page, provided processing reaches its tier (no DIAMOND
strictly before it in the tier list). -/
theorem processTiers_firstListing (o : Oracle) (quota fuel : Nat) (t d : String)
    (hq : 1 ≤ quota) (hf : 1 ≤ fuel)
    (hd : d ∈ divisionsFor t)
    (hdI : t = "DIAMOND" → "I" ∉ (divisionsFor t).takeWhile (fun x => x ≠ d)) :
    ∀ (ts : List String) (st : StateMap) (w : World), t ∈ ts →
      "DIAMOND" ∉ ts.takeWhile (fun x => x ≠ t) →
      firstListing t d (processTiers o quota fuel ts st w).ev
        = some (stGet st t d) := by
  intro ts
  induction ts with
  | nil => intro st w hmem _; simp at hmem
  | cons x rest ih =>
    intro st w hmem htw
    by_cases hx : x = t
    · subst hx
      simp only [processTiers]
      have hfirst := processDivisions_firstListing o quota fuel x d hq hf
        (divisionsFor x) st w hd hdI
      by_cases hstop : (processDivisions o quota fuel x (divisionsFor x) st w).stop = true
      · rw [if_pos hstop]
        exact hfirst
      · rw [if_neg hstop]
        exact firstListing_append_of_some x d _ _ _ hfirst
    · have hmem2 : t ∈ rest := by
        rcases List.mem_cons.mp hmem with hcon | hok
        · exact absurd hcon.symm hx
        · exact hok
      have htake : (x :: rest).takeWhile (fun y => y ≠ t)
          = x :: rest.takeWhile (fun y => y ≠ t) := by
        simp [List.takeWhile_cons, hx]
      have hxd : x ≠ "DIAMOND" := by
        intro hxD
        apply htw
        rw [htake, hxD]
        exact List.mem_cons_self _ _
      have htw2 : "DIAMOND" ∉ rest.takeWhile (fun y => y ≠ t) := by
        intro hmem3
        apply htw
        rw [htake]
        exact List.mem_cons_of_mem x hmem3
      have hstop : (processDivisions o quota fuel x (divisionsFor x) st w).stop
          = false := processDivisions_stop_ne o quota fuel x hxd (divisionsFor x) st w
      simp only [processTiers]
      rw [if_neg (by rw [hstop]; exact Bool.false_ne_true)]
      have hnone : firstListing t d
          (processDivisions o quota fuel x (divisionsFor x) st w).ev = none := by
        unfold firstListing
        rw [processDivisions_listing_ne o quota fuel x t d (fun hcon => hx hcon.symm)]
        rfl
      rw [firstListing_append_of_none t d _ _ hnone]
      have hres := ih (processDivisions o quota fuel x (divisionsFor x) st w).st
        (processDivisions o quota fuel x (divisionsFor x) st w).w hmem2 htw2
      rw [processDivisions_st_ne o quota fuel x t d (fun hcon => hx hcon.symm)] at hres
      exact hres

/-- A non-DIAMOND tier processes its divisions in list order. -/
theorem processDivisions_bucketStarts_ne (o : Oracle) (quota fuel : Nat)
    (t : String) (h : t ≠ "DIAMOND") :
    ∀ (ds : List String) (st : StateMap) (w : World),
      bucketStarts (processDivisions o quota fuel t ds st w).ev
        = ds.map (fun dv => (t, dv)) := by
  intro ds
  induction ds with
  | nil => intro st w; rfl
  | cons dv rest ih =>
    intro st w
    have hcond : ¬(t = "DIAMOND" ∧ dv = "I") := fun hxx => h hxx.1
    simp only [processDivisions, if_neg hcond]
    rw [bucketStarts_append, processBucket_bucketStarts, ih]
    rfl

/-- DIAMOND processes its divisions in reverse order and stops the run
after division I. -/
theorem processDivisions_bucketStarts_diamond (o : Oracle) (quota fuel : Nat)
    (st : StateMap) (w : World) :
    bucketStarts (processDivisions o quota fuel "DIAMOND" DIVISIONS.reverse st w).ev
      = [("DIAMOND", "IV"), ("DIAMOND", "III"), ("DIAMOND", "II"), ("DIAMOND", "I")]
    ∧ (processDivisions o quota fuel "DIAMOND" DIVISIONS.reverse st w).stop = true := by
  have hrev : DIVISIONS.reverse = ["IV", "III", "II", "I"] := rfl
  constructor
  · rw [hrev]
    simp [processDivisions, bucketStarts_append, processBucket_bucketStarts]
  · rw [hrev]
    simp [processDivisions]

/-- One tier step of the run: a non-DIAMOND tier contributes its four
buckets in order and the run continues. -/
theorem processTiers_cons_ne (o : Oracle) (quota fuel : Nat) (t : String)
    (h : t ≠ "DIAMOND") (rest : List String) (st : StateMap) (w : World) :
    bucketStarts (processTiers o quota fuel (t :: rest) st w).ev
      = (DIVISIONS.map (fun dv => (t, dv)))
        ++ bucketStarts (processTiers o quota fuel rest
            (processDivisions o quota fuel t (divisionsFor t) st w).st
            (processDivisions o quota fuel t (divisionsFor t) st w).w).ev := by
  have hstop := processDivisions_stop_ne o quota fuel t h (divisionsFor t) st w
  simp only [processTiers]
  rw [if_neg (by rw [hstop]; exact Bool.false_ne_true)]
  rw [bucketStarts_append, processDivisions_bucketStarts_ne o quota fuel t h]
  have hdf : divisionsFor t = DIVISIONS := by simp [divisionsFor, h]
  rw [hdf]

/-- The final tier step: DIAMOND contributes its four buckets in
reverse order and ends the run. -/
theorem processTiers_diamond (o : Oracle) (quota fuel : Nat)
    (st : StateMap) (w : World) :
    bucketStarts (processTiers o quota fuel ["DIAMOND"] st w).ev
      = [("DIAMOND", "IV"), ("DIAMOND", "III"), ("DIAMOND", "II"), ("DIAMOND", "I")] := by
  obtain ⟨hbs, hstop⟩ := processDivisions_bucketStarts_diamond o quota fuel st w
  have hdf : divisionsFor "DIAMOND" = DIVISIONS.reverse := by simp [divisionsFor]
  simp only [processTiers]
  rw [hdf, if_pos hstop]
  exact hbs

/-! ## Claim theorems -/

/-- Claim C1: `save_match` is idempotent per (bucket, matchId).  For a
match whose file is absent and whose detail fetch succeeds, the first
call performs exactly one network call and adds exactly one file; the
second call returns `False`, changes nothing and emits no event (so the
two calls together perform one network call and one file write); and
any world already holding the file is never re-fetched and never
re-appended. -/
theorem save_match_idempotent
    (o : Oracle) (w : World) (mid t d data : String)
    (hnew : (strToLower t, d, mid) ∉ w.files)
    (hdet : o.detail mid = some data) :
    (save_match o w mid t d).saved = true
    ∧ (save_match o w mid t d).ev = [Ev.fetchDetail mid]
    ∧ (save_match o w mid t d).w.files = w.files ++ [(strToLower t, d, mid)]
    ∧ save_match o (save_match o w mid t d).w mid t d
        = ⟨false, (save_match o w mid t d).w, []⟩
    ∧ ∀ w2 : World, (strToLower t, d, mid) ∈ w2.files →
        save_match o w2 mid t d = ⟨false, w2, []⟩ := by
  have hseen : ∀ w2 : World, (strToLower t, d, mid) ∈ w2.files →
      save_match o w2 mid t d = ⟨false, w2, []⟩ := by
    intro w2 h2
    unfold save_match
    rw [if_pos h2]
  have h1 : save_match o w mid t d
      = ⟨true,
          save_match_id_csv { w with files := w.files ++ [(strToLower t, d, mid)] } mid t d,
          [Ev.fetchDetail mid]⟩ := by
    unfold save_match
    rw [if_neg hnew, hdet]
  have hfiles : (save_match o w mid t d).w.files = w.files ++ [(strToLower t, d, mid)] := by
    rw [h1]
    exact (save_match_id_csv_files _ mid t d).1
  refine ⟨by rw [h1], by rw [h1], hfiles, ?_, hseen⟩
  exact hseen _ (by rw [hfiles]; exact List.mem_append_right _ (List.mem_singleton.mpr rfl))

/-- Witness for C1 at a concrete input. -/
theorem save_match_idempotent_witness :
    ((strToLower "GOLD", "II", "m1") ∉ (World.mk [] none []).files
      ∧ testOracle.detail "m1" = some "data")
    ∧ ((save_match testOracle (World.mk [] none []) "m1" "GOLD" "II").saved = true
      ∧ (save_match testOracle (World.mk [] none []) "m1" "GOLD" "II").ev
          = [Ev.fetchDetail "m1"]
      ∧ (save_match testOracle (World.mk [] none []) "m1" "GOLD" "II").w.files
          = (World.mk [] none []).files ++ [(strToLower "GOLD", "II", "m1")]
      ∧ save_match testOracle
            (save_match testOracle (World.mk [] none []) "m1" "GOLD" "II").w "m1" "GOLD" "II"
          = ⟨false, (save_match testOracle (World.mk [] none []) "m1" "GOLD" "II").w, []⟩
      ∧ ∀ w2 : World, (strToLower "GOLD", "II", "m1") ∈ w2.files →
          save_match testOracle w2 "m1" "GOLD" "II" = ⟨false, w2, []⟩) :=
  ⟨⟨by decide, rfl⟩,
    save_match_idempotent testOracle (World.mk [] none []) "m1" "GOLD" "II" "data"
      (by decide) rfl⟩

/-- Claim C2, counterexample: a 429 whose `Retry-After` header is
present but unparseable does not default to a 10 second sleep and does
not retry; `int` raises, the `except` clause returns `None`, so the
success payload scripted next is never reached and nothing is slept. -/
theorem make_api_call_unparseable_counterexample :
    make_api_call [Resp.r429 (some "abc"), Resp.ok "payload"] ⟨0, []⟩
      = (none, ⟨1, []⟩)
    ∧ (none : Option String) ≠ some "payload" := by
  exact ⟨by decide, by decide⟩

/-- Claim C2 (amended): for a script of 429 responses whose
`Retry-After` header is absent or parses to a nonnegative integer,
followed by a success, `make_api_call` sleeps the retry-after duration
for each 429 (10 seconds when the header is absent), enters the rate
limiter once per attempt including retries, and returns the success
payload.  (A present but unparseable header instead aborts the call
with a `None` return, as the counterexample shows.) -/
theorem make_api_call_429_retries
    (hs : List (Option String)) (b : String) (log : CallLog)
    (H : ∀ h ∈ hs, (0 : Int) ≤ (retryAfterSecs h).getD (-1)) :
    make_api_call (hs.map Resp.r429 ++ [Resp.ok b]) log
      = (some b,
         ⟨log.admits + (hs.length + 1),
          log.sleeps ++ hs.map (fun h => (retryAfterSecs h).getD 0)⟩) := by
  induction hs generalizing log with
  | nil => simp [make_api_call]
  | cons h hs ih =>
    have hh : (0 : Int) ≤ (retryAfterSecs h).getD (-1) := H h (List.mem_cons_self h hs)
    cases hr : retryAfterSecs h with
    | none => rw [hr] at hh; norm_num at hh
    | some n =>
      rw [hr] at hh
      simp only [Option.getD_some] at hh
      have hstep : make_api_call ((h :: hs).map Resp.r429 ++ [Resp.ok b]) log
          = make_api_call (hs.map Resp.r429 ++ [Resp.ok b])
              ⟨log.admits + 1, log.sleeps ++ [n]⟩ := by
        simp [make_api_call, hr, not_lt.mpr hh]
      rw [hstep, ih _ (fun x hx => H x (List.mem_cons_of_mem h hx))]
      simp only [List.length_cons, List.map_cons, Prod.mk.injEq, CallLog.mk.injEq, hr,
        Option.getD_some, List.append_assoc, List.singleton_append]
      exact ⟨trivial, by omega, trivial⟩

/-- Witness for the amended C2 at a concrete input: one 429 without a
header (default 10), one 429 with header "3", then a success. -/
theorem make_api_call_429_retries_witness :
    (∀ h ∈ ([none, some "3"] : List (Option String)),
        (0 : Int) ≤ (retryAfterSecs h).getD (-1))
    ∧ make_api_call (([none, some "3"] : List (Option String)).map Resp.r429
          ++ [Resp.ok "payload"]) ⟨0, []⟩
        = (some "payload",
           ⟨0 + (([none, some "3"] : List (Option String)).length + 1),
            [] ++ ([none, some "3"] : List (Option String)).map
              (fun h => (retryAfterSecs h).getD 0)⟩) :=
  ⟨by decide, make_api_call_429_retries [none, some "3"] "payload" ⟨0, []⟩ (by decide)⟩

/-- Claim C7: `get_puuid` performs exactly one lookup call on a cache
miss, caches the result (a `None` result included), and a second call
with the same summoner id returns the cached value with zero calls. -/
theorem get_puuid_cached_once
    (o : Oracle) (w : World) (sid : String)
    (hmiss : lookupCache w.cache sid = none) :
    (get_puuid o w sid).ev = [Ev.fetchSummoner sid]
    ∧ (get_puuid o w sid).pu = o.puuid sid
    ∧ lookupCache (get_puuid o w sid).w.cache sid = some (o.puuid sid)
    ∧ get_puuid o (get_puuid o w sid).w sid
        = ⟨o.puuid sid, (get_puuid o w sid).w, []⟩ := by
  have h1 : get_puuid o w sid
      = ⟨o.puuid sid, { w with cache := w.cache ++ [(sid, o.puuid sid)] },
          [Ev.fetchSummoner sid]⟩ := by
    unfold get_puuid
    rw [hmiss]
  have hcache : lookupCache (get_puuid o w sid).w.cache sid = some (o.puuid sid) := by
    rw [h1]
    exact lookupCache_append_self w.cache sid (o.puuid sid) hmiss
  refine ⟨by rw [h1], by rw [h1], hcache, ?_⟩
  rw [get_puuid_hit o _ sid _ hcache, h1]

/-- Witness for C7 at a concrete input, with a summoner id whose lookup
yields `None` (so the cached-null case is exercised). -/
theorem get_puuid_cached_once_witness :
    lookupCache (World.mk [] none []).cache "s9" = none
    ∧ ((get_puuid testOracle (World.mk [] none []) "s9").ev = [Ev.fetchSummoner "s9"]
      ∧ (get_puuid testOracle (World.mk [] none []) "s9").pu = testOracle.puuid "s9"
      ∧ lookupCache (get_puuid testOracle (World.mk [] none []) "s9").w.cache "s9"
          = some (testOracle.puuid "s9")
      ∧ get_puuid testOracle (get_puuid testOracle (World.mk [] none []) "s9").w "s9"
          = ⟨testOracle.puuid "s9",
              (get_puuid testOracle (World.mk [] none []) "s9").w, []⟩) :=
  ⟨rfl, get_puuid_cached_once testOracle (World.mk [] none []) "s9" rfl⟩

/-- Claim C8: for a not-yet-archived match, a failed detail call makes
`save_match` return `False` leaving the files and the CSV index exactly
as they were; a successful call writes the one file, appends exactly
one index row — prepending the header row exactly when the index file
did not exist — and returns `True`. -/
theorem save_match_error_handling
    (o : Oracle) (w : World) (mid t d : String)
    (hnew : (strToLower t, d, mid) ∉ w.files) :
    (o.detail mid = none →
      save_match o w mid t d = ⟨false, w, [Ev.fetchDetail mid]⟩)
    ∧ ∀ data, o.detail mid = some data →
      save_match o w mid t d
        = ⟨true,
            ⟨w.files ++ [(strToLower t, d, mid)],
             some ((w.csv.getD [csvHeader]) ++ [[mid, t, d]]),
             w.cache⟩,
            [Ev.fetchDetail mid]⟩ := by
  constructor
  · intro hfail
    unfold save_match
    rw [if_neg hnew, hfail]
  · intro data hdet
    unfold save_match
    rw [if_neg hnew, hdet]
    cases hc : w.csv <;> simp [save_match_id_csv, hc, csvHeader]

/-- Witness for C8 at concrete inputs: the failing branch via an oracle
with no match details, the succeeding branch via `testOracle` on a
world whose CSV file does not yet exist. -/
theorem save_match_error_handling_witness :
    (strToLower "GOLD", "II", "m1") ∉ (World.mk [] none []).files
    ∧ ((Oracle.mk (fun _ _ _ => []) (fun _ => none) (fun _ => []) (fun _ => none)).detail "m1"
          = none →
        save_match (Oracle.mk (fun _ _ _ => []) (fun _ => none) (fun _ => []) (fun _ => none))
            (World.mk [] none []) "m1" "GOLD" "II"
          = ⟨false, World.mk [] none [], [Ev.fetchDetail "m1"]⟩)
    ∧ (∀ data, testOracle.detail "m1" = some data →
        save_match testOracle (World.mk [] none []) "m1" "GOLD" "II"
          = ⟨true,
              ⟨(World.mk [] none []).files ++ [(strToLower "GOLD", "II", "m1")],
               some (((World.mk [] none []).csv.getD [csvHeader]) ++ [["m1", "GOLD", "II"]]),
               (World.mk [] none []).cache⟩,
              [Ev.fetchDetail "m1"]⟩) :=
  ⟨by decide,
    (save_match_error_handling
      (Oracle.mk (fun _ _ _ => []) (fun _ => none) (fun _ => []) (fun _ => none))
      (World.mk [] none []) "m1" "GOLD" "II" (by decide)).1,
    (save_match_error_handling testOracle (World.mk [] none []) "m1" "GOLD" "II"
      (by decide)).2⟩

/-- Claim C9 (the code contradicts it): the collection quota is not the
runtime-entered value.  The module tail raises `TypeError` at
`x = int(input)` no matter what stdin holds (the result is identical
for any two stdin lines because `input` is never called), and the
`collect_data` call under the guard passes the literal 100, not `x`. -/
theorem quota_prompt_never_used
    (o : Oracle) (file : Option StateMap) (fuel : Nat) (isMain : Bool)
    (s1 s2 : String) :
    moduleTail o file fuel isMain s1 = Except.error "TypeError"
    ∧ moduleTail o file fuel isMain s1 = moduleTail o file fuel isMain s2 :=
  ⟨rfl, rfl⟩

/-- Claim C10: with the credential set (so the module body runs to its
tail), `x = int(input)` applies `int` to the builtin `input` function
object and raises `TypeError`; execution never reaches the
`__main__` guard and `collect_data` is never invoked, whatever stdin
holds and whether or not the module is main. -/
theorem module_tail_typeerror
    (o : Oracle) (file : Option StateMap) (fuel : Nat) (isMain : Bool)
    (stdin : String) :
    moduleTail o file fuel isMain stdin = Except.error "TypeError" := rfl

/-- Claim C4: a run whose checkpoint stores page P for a bucket makes
its first player-listing request for that bucket at page P (not page
1); a missing checkpoint file loads as the empty mapping, whose read
for any bucket is 1, so every bucket then starts at page 1. -/
theorem checkpoint_resumption (o : Oracle) (file : Option StateMap)
    (quota fuel : Nat) (t d : String) (hq : 1 ≤ quota) (hf : 1 ≤ fuel)
    (ht : t ∈ TIERS) (hd : d ∈ DIVISIONS) :
    firstListing t d (collect_data o file quota fuel).ev
      = some (stGet (load_state file) t d)
    ∧ load_state none = []
    ∧ stGet ([] : StateMap) t d = 1 := by
  refine ⟨?_, rfl, rfl⟩
  have hdd : d ∈ divisionsFor t := by
    by_cases hD : t = "DIAMOND"
    · simp [divisionsFor, hD, List.mem_reverse]
      exact hd
    · simp [divisionsFor, hD]
      exact hd
  have hdI : t = "DIAMOND" → "I" ∉ (divisionsFor t).takeWhile (fun x => x ≠ d) := by
    intro hD
    rw [hD]
    fin_cases hd <;> decide
  have htw : "DIAMOND" ∉ TIERS.takeWhile (fun x => x ≠ t) := by
    fin_cases ht <;> decide
  simp only [collect_data]
  exact processTiers_firstListing o quota fuel t d hq hf hdd hdI TIERS
    (load_state file) ⟨[], none, []⟩ ht htw

/-- Witness for C4 at a concrete input: a checkpoint storing page 3 for
(GOLD, II) makes the first GOLD/II listing request page 3. -/
theorem checkpoint_resumption_witness :
    (1 ≤ 1 ∧ 1 ≤ 1 ∧ "GOLD" ∈ TIERS ∧ "II" ∈ DIVISIONS)
    ∧ (firstListing "GOLD" "II"
        (collect_data testOracle (some [(("GOLD", "II"), 3)]) 1 1).ev
        = some (stGet (load_state (some [(("GOLD", "II"), 3)])) "GOLD" "II")
      ∧ load_state none = []
      ∧ stGet ([] : StateMap) "GOLD" "II" = 1) :=
  ⟨⟨by decide, by decide, by decide, by decide⟩,
   checkpoint_resumption testOracle (some [(("GOLD", "II"), 3)]) 1 1 "GOLD" "II"
     (by decide) (by decide) (by decide) (by decide)⟩

/-- Claim C5: for every oracle, checkpoint file, quota and fuel, the
run starts buckets in exactly this order: each tier below DIAMOND with
divisions I, II, III, IV, then DIAMOND with divisions IV, III, II, I —
and the run ends right after DIAMOND I (it is the last bucket started,
whatever the other buckets still wanted). -/
theorem run_bucket_order (o : Oracle) (file : Option StateMap) (quota fuel : Nat) :
    bucketStarts (collect_data o file quota fuel).ev
      = TIERS.bind (fun t => (divisionsFor t).map (fun dv => (t, dv)))
    ∧ TIERS.bind (fun t => (divisionsFor t).map (fun dv => (t, dv)))
      = [("IRON", "I"), ("IRON", "II"), ("IRON", "III"), ("IRON", "IV"),
         ("BRONZE", "I"), ("BRONZE", "II"), ("BRONZE", "III"), ("BRONZE", "IV"),
         ("SILVER", "I"), ("SILVER", "II"), ("SILVER", "III"), ("SILVER", "IV"),
         ("GOLD", "I"), ("GOLD", "II"), ("GOLD", "III"), ("GOLD", "IV"),
         ("PLATINUM", "I"), ("PLATINUM", "II"), ("PLATINUM", "III"), ("PLATINUM", "IV"),
         ("EMERALD", "I"), ("EMERALD", "II"), ("EMERALD", "III"), ("EMERALD", "IV"),
         ("DIAMOND", "IV"), ("DIAMOND", "III"), ("DIAMOND", "II"), ("DIAMOND", "I")] := by
  constructor
  · simp only [collect_data]
    rw [show TIERS = "IRON" :: "BRONZE" :: "SILVER" :: "GOLD" :: "PLATINUM"
        :: "EMERALD" :: ["DIAMOND"] from rfl]
    rw [processTiers_cons_ne o quota fuel "IRON" (by decide),
      processTiers_cons_ne o quota fuel "BRONZE" (by decide),
      processTiers_cons_ne o quota fuel "SILVER" (by decide),
      processTiers_cons_ne o quota fuel "GOLD" (by decide),
      processTiers_cons_ne o quota fuel "PLATINUM" (by decide),
      processTiers_cons_ne o quota fuel "EMERALD" (by decide),
      processTiers_diamond o quota fuel]
    decide
  · decide

/-- Claim C6: after each page a bucket processes, the loop writes the
checkpoint with exactly that page — the page a resumed run reads back
and fetches first (`stGet` of `stSet` recovers it) — regardless of how
many matches the page yielded; the written values are the consecutive
processed pages starting at the resumed page, positive when the stored
checkpoint entries are positive, never decreasing within the run; the
listed pages exceed the written ones only by the final listing that
came back empty (the loop breaks before writing then), and no other
bucket entry is ever touched. -/
theorem checkpoint_write_per_page (o : Oracle) (quota fuel : Nat)
    (t d : String) (st : StateMap) (w : World)
    (hst : ∀ kv ∈ st, 1 ≤ kv.2) :
    ∃ k m : Nat,
      savedValues t d (processBucket o quota fuel t d st w).ev
        = (List.range k).map (fun i => stGet st t d + i)
      ∧ listingPages t d (processBucket o quota fuel t d st w).ev
        = (List.range m).map (fun i => stGet st t d + i)
      ∧ (m = k ∨ m = k + 1)
      ∧ (∀ v ∈ savedValues t d (processBucket o quota fuel t d st w).ev, 1 ≤ v)
      ∧ (savedValues t d (processBucket o quota fuel t d st w).ev).Sorted (· ≤ ·)
      ∧ (∀ t2 d2, (t2, d2) ≠ (t, d) →
          stGet (processBucket o quota fuel t d st w).st t2 d2 = stGet st t2 d2)
      ∧ (∀ (stx : StateMap) (p : Nat), stGet (stSet stx t d p) t d = p) := by
  obtain ⟨k, m, h1, h2, h3, _, h5⟩ :=
    processPages_spec o t d quota fuel (stGet st t d) 0 false st w
  have hpos : 1 ≤ stGet st t d := stGet_pos st t d hst
  have hev1 : savedValues t d (processBucket o quota fuel t d st w).ev
      = (List.range k).map (fun i => stGet st t d + i) := by
    simp only [processBucket]
    rw [savedValues_cons_start, h1]
  have hev2 : listingPages t d (processBucket o quota fuel t d st w).ev
      = (List.range m).map (fun i => stGet st t d + i) := by
    simp only [processBucket]
    rw [listingPages_cons_start, h2]
  refine ⟨k, m, hev1, hev2, h3, ?_, ?_, ?_, fun stx p => stGet_stSet_self stx t d p⟩
  · rw [hev1]
    exact mem_range_map_pos (stGet st t d) k hpos
  · rw [hev1]
    exact sorted_range_map (stGet st t d) k
  · intro t2 d2 hne
    simp only [processBucket]
    exact h5 t2 d2 hne

/-- Witness for C6 at a concrete input. -/
theorem checkpoint_write_per_page_witness :
    (∀ kv ∈ ([] : StateMap), 1 ≤ kv.2)
    ∧ (∃ k m : Nat,
      savedValues "GOLD" "II"
          (processBucket testOracle 9 3 "GOLD" "II" [] (World.mk [] none [])).ev
        = (List.range k).map (fun i => stGet [] "GOLD" "II" + i)
      ∧ listingPages "GOLD" "II"
          (processBucket testOracle 9 3 "GOLD" "II" [] (World.mk [] none [])).ev
        = (List.range m).map (fun i => stGet [] "GOLD" "II" + i)
      ∧ (m = k ∨ m = k + 1)
      ∧ (∀ v ∈ savedValues "GOLD" "II"
          (processBucket testOracle 9 3 "GOLD" "II" [] (World.mk [] none [])).ev, 1 ≤ v)
      ∧ (savedValues "GOLD" "II"
          (processBucket testOracle 9 3 "GOLD" "II" [] (World.mk [] none [])).ev).Sorted (· ≤ ·)
      ∧ (∀ t2 d2, (t2, d2) ≠ ("GOLD", "II") →
          stGet (processBucket testOracle 9 3 "GOLD" "II" [] (World.mk [] none [])).st t2 d2
            = stGet [] t2 d2)
      ∧ (∀ (stx : StateMap) (p : Nat), stGet (stSet stx "GOLD" "II" p) "GOLD" "II" = p)) :=
  ⟨by decide,
   checkpoint_write_per_page testOracle 9 3 "GOLD" "II" [] (World.mk [] none [])
     (by decide)⟩

end RiftOracle
